import Mathlib

/-!
# Verification of the provably-fair Plinko core (`src/lib/prng.ts`)

Shallow embedding of the XORShift32 generator, the commit-reveal protocol,
the round RNG, and the deterministic Plinko engine.  JavaScript numbers that
only ever hold 32-bit patterns are modelled as `Nat` with explicit `% 2^32`;
fractional arithmetic (`state / 2^32`, peg biases, multipliers) is modelled
over `ℚ`; `Math.round` is round-half-up (`⌊x + 1/2⌋`); `parseInt(_, 16)`
returning `NaN` is modelled as `Option.none`.
-/

/-- JavaScript `Math.round`: round half toward positive infinity,
`⌊q + 1/2⌋` (written with `Rat.floor` so it evaluates). -/
def jsRound (q : ℚ) : ℤ := (q + 1/2).floor

/-! ## SHA-256 (the `crypto` `sha256` digest used by the source) -/

def rotr32 (x k : ℕ) : ℕ := ((x >>> k) ||| (x <<< (32 - k))) % 2 ^ 32

def add32 (a b : ℕ) : ℕ := (a + b) % 2 ^ 32

def shaK : List ℕ :=
  [1116352408, 1899447441, 3049323471, 3921009573, 961987163,
   1508970993, 2453635748, 2870763221, 3624381080, 310598401,
   607225278, 1426881987, 1925078388, 2162078206, 2614888103,
   3248222580, 3835390401, 4022224774, 264347078, 604807628,
   770255983, 1249150122, 1555081692, 1996064986, 2554220882,
   2821834349, 2952996808, 3210313671, 3336571891, 3584528711,
   113926993, 338241895, 666307205, 773529912, 1294757372,
   1396182291, 1695183700, 1986661051, 2177026350, 2456956037,
   2730485921, 2820302411, 3259730800, 3345764771, 3516065817,
   3600352804, 4094571909, 275423344, 430227734, 506948616,
   659060556, 883997877, 958139571, 1322822218, 1537002063,
   1747873779, 1955562222, 2024104815, 2227730452, 2361852424,
   2428436474, 2756734187, 3204031479, 3329325298]

def shaH0 : List ℕ :=
  [1779033703, 3144134277, 1013904242, 2773480762,
   1359893119, 2600822924, 528734635, 1541459225]

def ssig0 (x : ℕ) : ℕ := rotr32 x 7 ^^^ rotr32 x 18 ^^^ (x >>> 3)

def ssig1 (x : ℕ) : ℕ := rotr32 x 17 ^^^ rotr32 x 19 ^^^ (x >>> 10)

def bsig0 (x : ℕ) : ℕ := rotr32 x 2 ^^^ rotr32 x 13 ^^^ rotr32 x 22

def bsig1 (x : ℕ) : ℕ := rotr32 x 6 ^^^ rotr32 x 11 ^^^ rotr32 x 25

def chF (x y z : ℕ) : ℕ := (x &&& y) ^^^ ((x ^^^ (2 ^ 32 - 1)) &&& z)

def majF (x y z : ℕ) : ℕ := (x &&& y) ^^^ (x &&& z) ^^^ (y &&& z)

/-- Message padding: append `0x80`, zeros, then the 64-bit big-endian bit length. -/
def shaPad (msg : List ℕ) : List ℕ :=
  let len := msg.length
  let zeros := (55 + 64 - len % 64) % 64
  let bitLen := len * 8
  msg ++ [0x80] ++ List.replicate zeros 0 ++
    [bitLen / 2 ^ 56 % 256, bitLen / 2 ^ 48 % 256, bitLen / 2 ^ 40 % 256,
     bitLen / 2 ^ 32 % 256, bitLen / 2 ^ 24 % 256, bitLen / 2 ^ 16 % 256,
     bitLen / 2 ^ 8 % 256, bitLen % 256]

def bytesToWords : List ℕ → List ℕ
  | b0 :: b1 :: b2 :: b3 :: rest =>
      (b0 * 2 ^ 24 + b1 * 2 ^ 16 + b2 * 2 ^ 8 + b3) :: bytesToWords rest
  | _ => []

def chunk16 : List ℕ → ℕ → List (List ℕ)
  | _, 0 => []
  | ws, fuel + 1 =>
      if ws = [] then [] else ws.take 16 :: chunk16 (ws.drop 16) fuel

def shaExtend : List ℕ → ℕ → List ℕ
  | w, 0 => w
  | w, n + 1 =>
      let i := w.length
      let wi := (w.getD (i - 16) 0 + ssig0 (w.getD (i - 15) 0) +
                 w.getD (i - 7) 0 + ssig1 (w.getD (i - 2) 0)) % 2 ^ 32
      shaExtend (w ++ [wi]) n

def shaRound (st : ℕ × ℕ × ℕ × ℕ × ℕ × ℕ × ℕ × ℕ) (kw : ℕ × ℕ) :
    ℕ × ℕ × ℕ × ℕ × ℕ × ℕ × ℕ × ℕ :=
  let (a, b, c, d, e, f, g, h) := st
  let t1 := (h + bsig1 e + chF e f g + kw.1 + kw.2) % 2 ^ 32
  let t2 := (bsig0 a + majF a b c) % 2 ^ 32
  ((t1 + t2) % 2 ^ 32, a, b, c, (d + t1) % 2 ^ 32, e, f, g)

def shaCompress (h : List ℕ) (block : List ℕ) : List ℕ :=
  let w := shaExtend block 48
  let st0 := (h.getD 0 0, h.getD 1 0, h.getD 2 0, h.getD 3 0,
              h.getD 4 0, h.getD 5 0, h.getD 6 0, h.getD 7 0)
  let st := (shaK.zip w).foldl shaRound st0
  let (a, b, c, d, e, f, g, hh) := st
  [add32 (h.getD 0 0) a, add32 (h.getD 1 0) b, add32 (h.getD 2 0) c,
   add32 (h.getD 3 0) d, add32 (h.getD 4 0) e, add32 (h.getD 5 0) f,
   add32 (h.getD 6 0) g, add32 (h.getD 7 0) hh]

def sha256Words (msg : List ℕ) : List ℕ :=
  let ws := bytesToWords (shaPad msg)
  (chunk16 ws (ws.length + 1)).foldl shaCompress shaH0

def hexDigitChar (n : ℕ) : Char :=
  if n < 10 then Char.ofNat (48 + n) else Char.ofNat (87 + n)

def wordToHex (w : ℕ) : List Char :=
  [hexDigitChar (w / 2 ^ 28 % 16), hexDigitChar (w / 2 ^ 24 % 16),
   hexDigitChar (w / 2 ^ 20 % 16), hexDigitChar (w / 2 ^ 16 % 16),
   hexDigitChar (w / 2 ^ 12 % 16), hexDigitChar (w / 2 ^ 8 % 16),
   hexDigitChar (w / 2 ^ 4 % 16), hexDigitChar (w % 16)]

/-- UTF-8 encoding of a character (the byte view `crypto.update` hashes). -/
def utf8Bytes (c : Char) : List ℕ :=
  let n := c.toNat
  if n < 0x80 then [n]
  else if n < 0x800 then [0xC0 + n / 64, 0x80 + n % 64]
  else if n < 0x10000 then [0xE0 + n / 4096, 0x80 + n / 64 % 64, 0x80 + n % 64]
  else [0xF0 + n / 262144, 0x80 + n / 4096 % 64, 0x80 + n / 64 % 64, 0x80 + n % 64]

def strBytes (s : String) : List ℕ := s.data.flatMap utf8Bytes

/-- Models `createHash('sha256').update(s).digest('hex')`. -/
def sha256Hex (s : String) : String :=
  String.mk ((sha256Words (strBytes s)).flatMap wordToHex)

/-! ## Commit-reveal protocol (`ProvablyFairProtocol`) -/

/-- Source `createCommitHash(serverSeed, nonce)`: sha256 of `serverSeed + ":" + nonce`. -/
def createCommitHash (serverSeed nonce : String) : String :=
  sha256Hex (serverSeed ++ ":" ++ nonce)

/-- Source `generateCombinedSeed(serverSeed, clientSeed, nonce)`. -/
def generateCombinedSeed (serverSeed clientSeed nonce : String) : String :=
  sha256Hex (serverSeed ++ ":" ++ clientSeed ++ ":" ++ nonce)

/-- Source `verifyCommit(serverSeed, nonce, commitHash)`: recompute and compare. -/
def verifyCommit (serverSeed nonce commitHash : String) : Bool :=
  createCommitHash serverSeed nonce == commitHash

/-- ECMAScript `StrWhiteSpaceChar`: white space and line terminators that
`parseInt` skips before parsing. -/
def isJsWhitespace (c : Char) : Bool :=
  c = ' ' ∨ c = '\t' ∨ c = '\n' ∨ c = '\r' ∨ c.toNat = 0x0B ∨ c.toNat = 0x0C ∨
  c.toNat = 0xA0 ∨ c.toNat = 0xFEFF ∨ c.toNat = 0x1680 ∨
  (0x2000 ≤ c.toNat ∧ c.toNat ≤ 0x200A) ∨ c.toNat = 0x2028 ∨
  c.toNat = 0x2029 ∨ c.toNat = 0x202F ∨ c.toNat = 0x205F ∨ c.toNat = 0x3000

def isHexDigitChar (c : Char) : Bool :=
  ('0' ≤ c ∧ c ≤ '9') ∨ ('a' ≤ c ∧ c ≤ 'f') ∨ ('A' ≤ c ∧ c ≤ 'F')

def hexVal (c : Char) : ℕ :=
  if c ≤ '9' then c.toNat - 48 else if c ≤ 'F' then c.toNat - 55 else c.toNat - 87

def parseSign : List Char → ℤ × List Char
  | [] => (1, [])
  | c :: rest =>
      if c = '-' then (-1, rest) else if c = '+' then (1, rest) else (1, c :: rest)

def strip0x : List Char → List Char
  | c0 :: c1 :: rest =>
      if c0 = '0' ∧ (c1 = 'x' ∨ c1 = 'X') then rest else c0 :: c1 :: rest
  | l => l

/-- ECMAScript `parseInt(s, 16)`; `none` is `NaN`. -/
def jsParseIntHex (s : String) : Option ℤ :=
  let cs := s.data.dropWhile isJsWhitespace
  let sg := parseSign cs
  let digits := (strip0x sg.2).takeWhile isHexDigitChar
  if digits = [] then none
  else some (sg.1 * (digits.foldl (fun acc c => acc * 16 + hexVal c) 0))

/-- Source `extractPRNGSeed(combinedSeed)`: `parseInt(combinedSeed.substring(0, 8), 16)`. -/
def extractPRNGSeed (combinedSeed : String) : Option ℤ :=
  jsParseIntHex (String.mk (combinedSeed.data.take 8))

/-! ## XORShift32 -/

/-- JavaScript `x >>> 0` on a parseInt result: `NaN` becomes `0`, negative
integers wrap modulo `2^32`. -/
def toUint32 : Option ℤ → ℕ
  | none => 0
  | some z => (z % 2 ^ 32).toNat

/-- The `XORShift32` constructor: store `seed >>> 0`, coercing `0` to `1`. -/
def xorInit (seed : Option ℤ) : ℕ :=
  let s := toUint32 seed
  if s = 0 then 1 else s

/-- One `XORShift32.next()` state update: XOR in the state shifted left 13,
right 17, left 5, each kept to 32 bits (the source's trailing `>>> 0`). -/
def next32 (s : ℕ) : ℕ :=
  let a := s ^^^ (s <<< 13) % 2 ^ 32
  let b := a ^^^ a >>> 17
  let c := b ^^^ (b <<< 5) % 2 ^ 32
  c % 2 ^ 32

/-- The value `next()` returns: the updated state divided by `0x100000000`. -/
def nextOut (s : ℕ) : ℚ := (next32 s : ℚ) / 2 ^ 32

/-! ## RoundRNG -/

structure RoundRNG where
  prngState : ℕ
  callCount : ℕ
deriving DecidableEq, Repr

/-- The `RoundRNG` constructor: seed a fresh `XORShift32` from
`extractPRNGSeed(combinedSeed)`, call count `0`. -/
def RoundRNG.init (combinedSeed : String) : RoundRNG :=
  ⟨xorInit (extractPRNGSeed combinedSeed), 0⟩

/-- Source `RoundRNG.next()`: bump the call counter and delegate to the generator. -/
def RoundRNG.next (r : RoundRNG) : ℚ × RoundRNG :=
  (nextOut r.prngState, ⟨next32 r.prngState, r.callCount + 1⟩)

/-! ## Plinko engine (`src/lib/engine` part of the source file) -/

def ROWS : ℕ := 12

def BINS : ℕ := ROWS + 1

inductive Dir where
  | left
  | right
deriving DecidableEq, Repr

structure GamePath where
  row : ℕ
  column : ℕ
  direction : Dir
  pegBias : ℚ
  randomValue : ℚ
  adjustedBias : ℚ
deriving DecidableEq, Repr

structure GameResult where
  pegMap : List (List ℚ)
  pegMapHash : String
  path : List GamePath
  binIndex : ℕ
  payoutMultiplier : ℚ
  payoutCents : ℤ
  rows : ℕ
  combinedSeed : String
deriving DecidableEq, Repr

/-- One row of `generatePegMap`'s inner loop: `count` pegs, each
`Math.round((0.5 + (rng.next() - 0.5) * 0.2) * 1000000) / 1000000`. -/
def genPegRow : RoundRNG → ℕ → List ℚ × RoundRNG
  | rng, 0 => ([], rng)
  | rng, n + 1 =>
      let (u, rng1) := rng.next
      let leftBias : ℚ := 1/2 + (u - 1/2) * (1/5)
      let roundedBias : ℚ := (jsRound (leftBias * 1000000) : ℚ) / 1000000
      let (rest, rng2) := genPegRow rng1 n
      (roundedBias :: rest, rng2)

/-- The outer loop of `generatePegMap`: rows `row, row+1, ...`, row `r`
holding `r + 1` pegs. -/
def genRows : RoundRNG → ℕ → ℕ → List (List ℚ) × RoundRNG
  | rng, _, 0 => ([], rng)
  | rng, row, n + 1 =>
      let (pegRow, rng1) := genPegRow rng (row + 1)
      let (rest, rng2) := genRows rng1 (row + 1) n
      (pegRow :: rest, rng2)

/-- Source `PlinkoEngine.generatePegMap(rng, rows)`. -/
def generatePegMap (rng : RoundRNG) (rows : ℕ) : List (List ℚ) × RoundRNG :=
  genRows rng 0 rows

/-- Decimal rendering of a non-negative 6-dp rational, modelling how
`JSON.stringify` prints the rounded bias doubles (shortest decimal form). -/
def qToDecimal (q : ℚ) : String :=
  let intPart := q.num.toNat / q.den
  let fracNum := q.num.toNat % q.den * 1000000 / q.den
  if fracNum = 0 then toString intPart
  else
    let digits := (Nat.toDigits 10 (1000000 + fracNum)).drop 1
    let trimmed := (digits.reverse.dropWhile (· = '0')).reverse
    toString intPart ++ "." ++ String.mk trimmed

/-- Models `JSON.stringify` of the nested peg-bias array. -/
def stringifyPegMap (pegMap : List (List ℚ)) : String :=
  "[" ++ String.intercalate (",")
    (pegMap.map fun row =>
      "[" ++ String.intercalate (",") (row.map qToDecimal) ++ "]") ++ "]"

/-- Source `PlinkoEngine.createPegMapHash(pegMap)`. -/
def createPegMapHash (pegMap : List (List ℚ)) : String :=
  sha256Hex (stringifyPegMap pegMap)

/-- The loop of `simulateDrop`: rows `row, ..., row+n-1`, position `pos`;
`none` models the TypeError when `pegMap[row]` is `undefined` (the inner
peg read is also mapped to `none`; in the source a missing peg would
propagate `NaN`, but every call below keeps it in bounds). -/
def simGo (rng : RoundRNG) (pegMap : List (List ℚ)) (adj : ℚ) :
    ℕ → ℕ → ℕ → Option (List GamePath × RoundRNG)
  | _, _, 0 => some ([], rng)
  | pos, row, n + 1 =>
      (pegMap[row]?).bind fun pegRow =>
      (pegRow[min pos row]?).bind fun leftBias =>
      let adjustedBias := max 0 (min 1 (leftBias + adj))
      let u := rng.next.1
      let rng1 := rng.next.2
      let dir := if u < adjustedBias then Dir.left else Dir.right
      let pos1 := if dir = Dir.right then pos + 1 else pos
      (simGo rng1 pegMap adj pos1 (row + 1) n).bind fun pr =>
      some (⟨row, pos1, dir, leftBias, u, adjustedBias⟩ :: pr.1, pr.2)

/-- Source `PlinkoEngine.simulateDrop(rng, pegMap, dropColumn)`: note the loop runs
over the constant `ROWS`, and `adj = (dropColumn - floor(ROWS/2)) * 0.01`. -/
def simulateDrop (rng : RoundRNG) (pegMap : List (List ℚ)) (dropColumn : ℤ) :
    Option (List GamePath × RoundRNG) :=
  simGo rng pegMap (((dropColumn : ℚ) - (ROWS / 2 : ℕ)) * (1/100)) 0 0 ROWS

/-- Source `PlinkoEngine.getPayoutMultipliers(bins)`: for bin `i`,
`Math.round((0.5 + |i - floor(bins/2)| * 0.3) * 100) / 100`. -/
def getPayoutMultipliers (bins : ℕ) : List ℚ :=
  let center := bins / 2
  (List.range bins).map fun (i : ℕ) =>
    let distance : ℕ := ((i : ℤ) - (center : ℤ)).natAbs
    let multiplier : ℚ := 1/2 + (distance : ℚ) * (3/10)
    (jsRound (multiplier * 100) : ℚ) / 100

/-- Source `PlinkoEngine.playRound`: combined seed, fresh `RoundRNG`, peg map and
hash, drop simulation, bin read off the last path step, payout.  `none`
models the uncaught TypeErrors on out-of-bounds indexing. -/
def playRound (serverSeed clientSeed nonce : String) (dropColumn : ℤ)
    (rows : ℕ) (betCents : ℤ) : Option GameResult :=
  let combinedSeed := sha256Hex (serverSeed ++ ":" ++ clientSeed ++ ":" ++ nonce)
  let rng := RoundRNG.init combinedSeed
  let gen := generatePegMap rng rows
  let pegMap := gen.1
  let rng1 := gen.2
  let pegMapHash := createPegMapHash pegMap
  (simulateDrop rng1 pegMap dropColumn).bind fun pr =>
  (pr.1.getLast?).bind fun lastStep =>
  let binIndex := lastStep.column
  let multipliers := getPayoutMultipliers BINS
  (multipliers[binIndex]?).bind fun payoutMultiplier =>
  let payoutCents := jsRound ((betCents : ℚ) * payoutMultiplier)
  some ⟨pegMap, pegMapHash, pr.1, binIndex, payoutMultiplier,
        payoutCents, rows, combinedSeed⟩

/-! ## Specification-side closed forms and basic lemmas -/

/-- The bias stored for a generator state `st` read off one draw:
`round6(0.5 + (st/2^32 - 0.5) * 0.2)`. -/
def pegBiasOf (st : ℕ) : ℚ :=
  (jsRound ((1/2 + ((st : ℚ) / 2 ^ 32 - 1/2) * (1/5)) * 1000000) : ℚ) / 1000000

/-- Draws consumed by the peg-map rows starting at row `row`:
`rowOffs row i = (row+1) + (row+2) + ... + (row+i)`. -/
def rowOffs : ℕ → ℕ → ℕ
  | _, 0 => 0
  | row, i + 1 => (row + 1) + rowOffs (row + 1) i

/-- Closed form of the peg map described by the spec: row `r` has `r + 1`
entries, the entry at `(r, p)` comes from draw number `r*(r+1)/2 + p + 1`
of the stream — row-major, left-to-right order. -/
def pegMapClosed (s : ℕ) (rows : ℕ) : List (List ℚ) :=
  (List.range rows).map fun r =>
    (List.range (r + 1)).map fun p => pegBiasOf (next32^[r * (r + 1) / 2 + p + 1] s)

theorem jsRound_eq_floor (q : ℚ) : jsRound q = ⌊q + 1/2⌋ := rfl

theorem next32_lt (s : ℕ) : next32 s < 2 ^ 32 := by
  unfold next32
  exact Nat.mod_lt _ (by norm_num)

theorem nextOut_nonneg (s : ℕ) : 0 ≤ nextOut s := by
  unfold nextOut
  positivity

theorem nextOut_lt_one (s : ℕ) : nextOut s < 1 := by
  unfold nextOut
  rw [div_lt_one (by positivity)]
  exact_mod_cast next32_lt s

theorem pegBiasOf_bounds (st : ℕ) (hst : st < 2 ^ 32) :
    2/5 ≤ pegBiasOf st ∧ pegBiasOf st ≤ 3/5 := by
  have hu0 : (0 : ℚ) ≤ (st : ℚ) / 2 ^ 32 := by positivity
  have hu1 : (st : ℚ) / 2 ^ 32 < 1 := by
    rw [div_lt_one (by positivity)]
    exact_mod_cast hst
  set x : ℚ := (1/2 + ((st : ℚ) / 2 ^ 32 - 1/2) * (1/5)) * 1000000 with hx
  have hxlo : (400000 : ℚ) ≤ x := by rw [hx]; nlinarith
  have hxhi : x < 600000 := by rw [hx]; nlinarith
  have hlo : (400000 : ℤ) ≤ jsRound x := by
    rw [jsRound_eq_floor]
    exact Int.le_floor.mpr (by push_cast; linarith)
  have hhi : jsRound x ≤ 600000 := by
    rw [jsRound_eq_floor]
    have := Int.floor_lt.mpr (show x + 1/2 < ((600001 : ℤ) : ℚ) by push_cast; linarith)
    omega
  constructor
  · rw [pegBiasOf, hx.symm, div_le_div_iff₀ (by norm_num) (by norm_num)]
    calc (2:ℚ) * 1000000 = 400000 * 5 := by norm_num
    _ ≤ (jsRound x : ℚ) * 5 := by
        have : (400000 : ℚ) ≤ (jsRound x : ℚ) := by exact_mod_cast hlo
        linarith
  · rw [pegBiasOf, hx.symm, div_le_div_iff₀ (by norm_num) (by norm_num)]
    have : (jsRound x : ℚ) ≤ 600000 := by exact_mod_cast hhi
    linarith

theorem iterate_next32_shift (k j s : ℕ) :
    next32^[k] (next32^[j] s) = next32^[k + j] s :=
  (Function.iterate_add_apply next32 k j s).symm

theorem pegBias_exp_congr {a b : ℕ} (s : ℕ) (h : a = b) :
    pegBiasOf (next32^[a] s) = pegBiasOf (next32^[b] s) := by rw [h]

theorem iterate_exp_congr {a b : ℕ} (s : ℕ) (h : a = b) :
    next32^[a] s = next32^[b] s := by rw [h]

theorem roundRNG_mk_congr {a b c d : ℕ} (h1 : a = b) (h2 : c = d) :
    (⟨a, c⟩ : RoundRNG) = ⟨b, d⟩ := by rw [h1, h2]

theorem genPegRow_spec (m : ℕ) : ∀ rng : RoundRNG,
    genPegRow rng m =
      ((List.range m).map fun p => pegBiasOf (next32^[p + 1] rng.prngState),
       ⟨next32^[m] rng.prngState, rng.callCount + m⟩) := by
  induction m with
  | zero => intro rng; simp [genPegRow]
  | succ n ih =>
      intro rng
      rw [genPegRow, RoundRNG.next]
      dsimp only
      rw [ih ⟨next32 rng.prngState, rng.callCount + 1⟩]
      dsimp only
      rw [List.range_succ_eq_map, List.map_cons, List.map_map]
      refine congrArg₂ Prod.mk (congrArg₂ List.cons ?_ ?_) ?_
      · simp [pegBiasOf, nextOut, Function.iterate_one]
      · refine List.map_congr_left fun p _ => ?_
        simp only [Function.comp_apply]
        rw [show next32 rng.prngState = next32^[1] rng.prngState from rfl,
          iterate_next32_shift]
      · rw [show next32 rng.prngState = next32^[1] rng.prngState from rfl,
          iterate_next32_shift]
        exact roundRNG_mk_congr (iterate_exp_congr _ (by omega)) (by omega)

theorem map_range_succ {α : Type} (F : ℕ → α) (n : ℕ) :
    (List.range (n + 1)).map F = F 0 :: (List.range n).map fun i => F (i + 1) := by
  rw [List.range_succ_eq_map, List.map_cons, List.map_map]
  rfl

theorem genRows_spec (n : ℕ) : ∀ (row : ℕ) (rng : RoundRNG),
    genRows rng row n =
      ((List.range n).map fun i =>
         (List.range (row + i + 1)).map fun p =>
           pegBiasOf (next32^[rowOffs row i + p + 1] rng.prngState),
       ⟨next32^[rowOffs row n] rng.prngState, rng.callCount + rowOffs row n⟩) := by
  induction n with
  | zero => intro row rng; simp [genRows, rowOffs]
  | succ n ih =>
      intro row rng
      rw [genRows, genPegRow_spec]
      dsimp only
      rw [ih (row + 1) ⟨next32^[row + 1] rng.prngState, rng.callCount + (row + 1)⟩]
      dsimp only
      conv_rhs => rw [map_range_succ]
      refine congrArg₂ Prod.mk (congrArg₂ List.cons ?_ ?_) ?_
      · refine List.map_congr_left fun p _ => ?_
        refine pegBias_exp_congr rng.prngState ?_
        rw [rowOffs]
        omega
      · refine List.map_congr_left fun i _ => ?_
        have hlen : row + 1 + i + 1 = row + (i + 1) + 1 := by omega
        rw [hlen]
        refine List.map_congr_left fun p _ => ?_
        rw [iterate_next32_shift]
        refine pegBias_exp_congr rng.prngState ?_
        rw [show rowOffs row (i + 1) = (row + 1) + rowOffs (row + 1) i from rfl]
        omega
      · rw [iterate_next32_shift]
        have h3 : rowOffs (row + 1) n + (row + 1) = rowOffs row (n + 1) := by
          rw [show rowOffs row (n + 1) = (row + 1) + rowOffs (row + 1) n from rfl]
          omega
        exact roundRNG_mk_congr (iterate_exp_congr _ h3) (by omega)

theorem rowOffs_mul_two : ∀ (i row : ℕ), rowOffs row i * 2 = i * (2 * row + i + 1) := by
  intro i
  induction i with
  | zero => intro row; simp [rowOffs]
  | succ n ih =>
      intro row
      rw [show rowOffs row (n + 1) = (row + 1) + rowOffs (row + 1) n from rfl,
        Nat.add_mul, ih (row + 1)]
      ring

theorem rowOffs_zero (i : ℕ) : rowOffs 0 i = i * (i + 1) / 2 := by
  have h : rowOffs 0 i * 2 = i * (i + 1) := by rw [rowOffs_mul_two]; ring
  omega

theorem generatePegMap_eq (rng : RoundRNG) (rows : ℕ) :
    generatePegMap rng rows =
      (pegMapClosed rng.prngState rows,
       ⟨next32^[rows * (rows + 1) / 2] rng.prngState,
        rng.callCount + rows * (rows + 1) / 2⟩) := by
  rw [generatePegMap, genRows_spec, pegMapClosed]
  refine congrArg₂ Prod.mk ?_
    (roundRNG_mk_congr (iterate_exp_congr _ (rowOffs_zero rows)) (by rw [rowOffs_zero]))
  refine List.map_congr_left fun r _ => ?_
  rw [show 0 + r + 1 = r + 1 by omega]
  exact List.map_congr_left fun p _ =>
    pegBias_exp_congr _ (by rw [rowOffs_zero])

theorem pegMapClosed_length (s rows : ℕ) : (pegMapClosed s rows).length = rows := by
  simp [pegMapClosed]

theorem pegMapClosed_row (s rows r : ℕ) (h : r < rows) :
    (pegMapClosed s rows)[r]? =
      some ((List.range (r + 1)).map fun p =>
        pegBiasOf (next32^[r * (r + 1) / 2 + p + 1] s)) := by
  simp [pegMapClosed, List.getElem?_range h]

theorem pegBiasOf_iterate_bounds (s k : ℕ) :
    2/5 ≤ pegBiasOf (next32^[k + 1] s) ∧ pegBiasOf (next32^[k + 1] s) ≤ 3/5 := by
  rw [Function.iterate_succ_apply']
  exact pegBiasOf_bounds _ (next32_lt _)

theorem simGo_adjusted (pegMap : List (List ℚ)) (adj : ℚ) :
    ∀ (n pos row : ℕ) (rng : RoundRNG) (path : List GamePath) (rng' : RoundRNG),
      simGo rng pegMap adj pos row n = some (path, rng') →
      ∀ st ∈ path, 0 ≤ st.adjustedBias ∧ st.adjustedBias ≤ 1 := by
  intro n
  induction n with
  | zero =>
      intro pos row rng path rng' h st hst
      rw [simGo] at h
      rw [← ((Prod.mk.injEq _ _ _ _).mp (Option.some.inj h)).1] at hst
      simp at hst
  | succ n ih =>
      intro pos row rng path rng' h st hst
      rw [simGo] at h
      rcases Option.bind_eq_some.mp h with ⟨pegRow, hrow, h⟩
      rcases Option.bind_eq_some.mp h with ⟨leftBias, hpeg, h⟩
      dsimp only at h
      rcases Option.bind_eq_some.mp h with ⟨pr, hrec, h⟩
      rw [← ((Prod.mk.injEq _ _ _ _).mp (Option.some.inj h)).1] at hst
      rcases List.mem_cons.mp hst with heq | hmem
      · subst heq
        exact ⟨le_max_left _ _, max_le (by norm_num) (min_le_left _ _)⟩
      · exact ih _ _ _ _ _ hrec st hmem

theorem simGo_post (pegMap : List (List ℚ)) (adj : ℚ) :
    ∀ (n pos row : ℕ) (rng : RoundRNG) (path : List GamePath) (rng' : RoundRNG),
      simGo rng pegMap adj pos row n = some (path, rng') →
      path.length = n ∧
      ∀ i st, path[i]? = some st → st.row = row + i ∧ st.column ≤ pos + i + 1 := by
  intro n
  induction n with
  | zero =>
      intro pos row rng path rng' h
      rw [simGo] at h
      rw [← ((Prod.mk.injEq _ _ _ _).mp (Option.some.inj h)).1]
      exact ⟨rfl, fun i st hst => by simp at hst⟩
  | succ n ih =>
      intro pos row rng path rng' h
      rw [simGo] at h
      rcases Option.bind_eq_some.mp h with ⟨pegRow, hrow, h⟩
      rcases Option.bind_eq_some.mp h with ⟨leftBias, hpeg, h⟩
      dsimp only at h
      rcases Option.bind_eq_some.mp h with ⟨pr, hrec, h⟩
      rcases ih _ _ _ _ _ hrec with ⟨hlen, hidx⟩
      rw [← ((Prod.mk.injEq _ _ _ _).mp (Option.some.inj h)).1]
      constructor
      · simp [hlen]
      · intro i st hst
        match i with
        | 0 =>
            rw [List.getElem?_cons_zero] at hst
            rw [← Option.some.inj hst]
            dsimp only
            exact ⟨by omega, by split <;> simp⟩
        | i + 1 =>
            rw [List.getElem?_cons_succ] at hst
            rcases hidx i st hst with ⟨h1, h2⟩
            refine ⟨by omega, ?_⟩
            revert h2
            split <;> (intro h2; simp at h2; omega)

theorem simGo_success (pegMap : List (List ℚ)) (adj : ℚ) :
    ∀ (n pos row : ℕ) (rng : RoundRNG),
      (∀ r, row ≤ r → r < row + n → r < pegMap.length ∧
        ∀ l, pegMap[r]? = some l → r < l.length) →
      ∃ pr, simGo rng pegMap adj pos row n = some pr := by
  intro n
  induction n with
  | zero => intro pos row rng _; exact ⟨([], rng), by rw [simGo]⟩
  | succ n ih =>
      intro pos row rng hwf
      rcases hwf row (le_refl row) (by omega) with ⟨hrow, hlen⟩
      have hrowget : pegMap[row]? = some (pegMap.get ⟨row, hrow⟩) := by
        simp [List.getElem?_eq_getElem hrow]
      have hpegl : min pos row < (pegMap.get ⟨row, hrow⟩).length :=
        lt_of_le_of_lt (min_le_right _ _) (hlen _ hrowget)
      have hpegget : (pegMap.get ⟨row, hrow⟩)[min pos row]? =
          some ((pegMap.get ⟨row, hrow⟩).get ⟨min pos row, hpegl⟩) := by
        simp [List.getElem?_eq_getElem hpegl]
      rcases ih (if (if rng.next.1 <
            max 0 (min 1 ((pegMap.get ⟨row, hrow⟩).get ⟨min pos row, hpegl⟩ + adj))
          then Dir.left else Dir.right) = Dir.right then pos + 1 else pos)
          (row + 1) rng.next.2 (fun r h1 h2 => hwf r (by omega) (by omega)) with ⟨pr, hpr⟩
      rw [simGo, hrowget, Option.some_bind, hpegget, Option.some_bind]
      dsimp only
      rw [hpr, Option.some_bind]
      exact ⟨_, rfl⟩

theorem getPayoutMultipliers_length (bins : ℕ) :
    (getPayoutMultipliers bins).length = bins := by
  rw [getPayoutMultipliers]
  dsimp only
  rw [List.length_map, List.length_range]

theorem playRound_path12 (s c n : String) (col bet : ℤ) (rows : ℕ) (r : GameResult)
    (h : playRound s c n col rows bet = some r) :
    r.path.length = 12 ∧ (∀ (i : ℕ) (st : GamePath), r.path[i]? = some st → st.row = i) ∧
    r.binIndex ≤ 12 := by
  simp only [playRound] at h
  rcases Option.bind_eq_some.mp h with ⟨pr, hsim, h⟩
  rcases Option.bind_eq_some.mp h with ⟨lastStep, hlast, h⟩
  rcases Option.bind_eq_some.mp h with ⟨pm, hmul, h⟩
  rw [simulateDrop] at hsim
  have hsim' : simGo (generatePegMap (RoundRNG.init
      (sha256Hex (s ++ ":" ++ c ++ ":" ++ n))) rows).2
      (generatePegMap (RoundRNG.init (sha256Hex (s ++ ":" ++ c ++ ":" ++ n))) rows).1
      (((col : ℚ) - (ROWS / 2 : ℕ)) * (1/100)) 0 0 ROWS = some (pr.1, pr.2) := by
    rw [Prod.mk.eta]; exact hsim
  rcases simGo_post _ _ _ _ _ _ _ _ hsim' with ⟨hlen, hidx⟩
  have h11 : pr.1[(11 : ℕ)]? = some lastStep := by
    rw [List.getLast?_eq_getElem?] at hlast
    rw [hlen] at hlast
    simpa using hlast
  have hcol : lastStep.column ≤ 12 := by
    have := (hidx 11 lastStep h11).2
    omega
  have hr := Option.some.inj h
  subst hr
  dsimp only
  exact ⟨hlen, fun i st hst => by simpa using (hidx i st hst).1, hcol⟩

theorem pegMapClosed_wf (s0 rows : ℕ) :
    ∀ r, 0 ≤ r → r < 0 + rows → r < (pegMapClosed s0 rows).length ∧
      ∀ l, (pegMapClosed s0 rows)[r]? = some l → r < l.length := by
  intro r _ hr
  have hr' : r < rows := by omega
  refine ⟨by rw [pegMapClosed_length]; exact hr', fun l hl => ?_⟩
  rw [pegMapClosed_row s0 rows r hr'] at hl
  rw [← Option.some.inj hl, List.length_map, List.length_range]
  omega

theorem playRound_success12 (s c n : String) (col bet : ℤ) :
    ∃ r, playRound s c n col 12 bet = some r := by
  simp only [playRound, generatePegMap_eq]
  rw [simulateDrop]
  rcases simGo_success (pegMapClosed
      (RoundRNG.init (sha256Hex (s ++ ":" ++ c ++ ":" ++ n))).prngState 12)
      (((col : ℚ) - (ROWS / 2 : ℕ)) * (1/100)) ROWS 0 0
      ⟨next32^[12 * (12 + 1) / 2] (RoundRNG.init
        (sha256Hex (s ++ ":" ++ c ++ ":" ++ n))).prngState,
       (RoundRNG.init (sha256Hex (s ++ ":" ++ c ++ ":" ++ n))).callCount
         + 12 * (12 + 1) / 2⟩
      (pegMapClosed_wf _ 12) with ⟨pr, hpr⟩
  rw [hpr, Option.some_bind]
  have hsim' : simGo ⟨next32^[12 * (12 + 1) / 2] (RoundRNG.init
        (sha256Hex (s ++ ":" ++ c ++ ":" ++ n))).prngState,
       (RoundRNG.init (sha256Hex (s ++ ":" ++ c ++ ":" ++ n))).callCount
         + 12 * (12 + 1) / 2⟩
      (pegMapClosed (RoundRNG.init (sha256Hex (s ++ ":" ++ c ++ ":" ++ n))).prngState 12)
      (((col : ℚ) - (ROWS / 2 : ℕ)) * (1/100)) 0 0 ROWS = some (pr.1, pr.2) := by
    rw [Prod.mk.eta]; exact hpr
  rcases simGo_post _ _ _ _ _ _ _ _ hsim' with ⟨hlen, hidx⟩
  have h11lt : (11 : ℕ) < pr.1.length := by rw [hlen]; norm_num [ROWS]
  have hlast : pr.1.getLast? = some pr.1[11] := by
    rw [List.getLast?_eq_getElem?, hlen]
    exact List.getElem?_eq_getElem h11lt
  rw [hlast, Option.some_bind]
  have hcol : pr.1[11].column ≤ 12 := by
    have := (hidx 11 pr.1[11] (List.getElem?_eq_getElem h11lt)).2
    omega
  have hmlt : pr.1[11].column < (getPayoutMultipliers BINS).length := by
    rw [getPayoutMultipliers_length]
    show pr.1[11].column < 13
    omega
  rw [List.getElem?_eq_getElem hmlt, Option.some_bind]
  exact ⟨_, rfl⟩

theorem playRound_bet (s c n : String) (col : ℤ) (rows : ℕ) (bet bet' : ℤ)
    (r : GameResult) (h : playRound s c n col rows bet = some r) :
    playRound s c n col rows bet' =
      some ⟨r.pegMap, r.pegMapHash, r.path, r.binIndex, r.payoutMultiplier,
            jsRound ((bet' : ℚ) * r.payoutMultiplier), r.rows, r.combinedSeed⟩ ∧
    r.payoutCents = jsRound ((bet : ℚ) * r.payoutMultiplier) := by
  simp only [playRound] at h ⊢
  rcases Option.bind_eq_some.mp h with ⟨pr, hsim, h⟩
  rcases Option.bind_eq_some.mp h with ⟨lastStep, hlast, h⟩
  rcases Option.bind_eq_some.mp h with ⟨pm, hmul, h⟩
  have hr := Option.some.inj h
  subst hr
  rw [hsim, Option.some_bind, hlast, Option.some_bind, hmul, Option.some_bind]
  exact ⟨rfl, rfl⟩

theorem jsRound_two_mul (x : ℚ) : |jsRound (2 * x) - 2 * jsRound x| ≤ 1 := by
  rw [jsRound_eq_floor, jsRound_eq_floor]
  have h1 : ((⌊x + 1/2⌋ : ℤ) : ℚ) ≤ x + 1/2 := Int.floor_le _
  have h2 : x + 1/2 < ⌊x + 1/2⌋ + 1 := Int.lt_floor_add_one _
  have hlo : (2 * ⌊x + 1/2⌋ - 1 : ℤ) ≤ ⌊2 * x + 1/2⌋ :=
    Int.le_floor.mpr (by push_cast; linarith)
  have hhi : ⌊2 * x + 1/2⌋ < 2 * ⌊x + 1/2⌋ + 2 :=
    Int.floor_lt.mpr (by push_cast; linarith)
  rw [abs_le]
  omega

theorem jsParseIntHex_nonhex (c : Char) (l : List Char)
    (h1 : isHexDigitChar c = false) (h2 : isJsWhitespace c = false)
    (h3 : c ≠ '+') (h4 : c ≠ '-') :
    jsParseIntHex (String.mk (c :: l)) = none := by
  have hc0 : c ≠ '0' := fun he => by rw [he] at h1; exact absurd h1 (by decide)
  have hdrop : List.dropWhile isJsWhitespace (c :: l) = c :: l := by
    rw [List.dropWhile_cons]
    simp [h2]
  have hsign : parseSign (c :: l) = (1, c :: l) := by
    rw [parseSign, if_neg h4, if_neg h3]
  have hstrip : strip0x (c :: l) = c :: l := by
    cases l with
    | nil => rfl
    | cons c1 rest => rw [strip0x]; exact if_neg (fun hh => hc0 hh.1)
  have htake : (c :: l).takeWhile isHexDigitChar = [] := by
    rw [List.takeWhile_cons]
    simp [h1]
  rw [jsParseIntHex]
  dsimp only
  rw [hdrop, hsign]
  dsimp only
  rw [hstrip, htake]
  simp

theorem extractPRNGSeed_nonhex (c : Char) (rest : List Char)
    (h1 : isHexDigitChar c = false) (h2 : isJsWhitespace c = false)
    (h3 : c ≠ '+') (h4 : c ≠ '-') :
    extractPRNGSeed (String.mk (c :: rest)) = none := by
  rw [extractPRNGSeed]
  exact jsParseIntHex_nonhex c (rest.take 7) h1 h2 h3 h4

theorem jsRound_natCast (m : ℕ) : jsRound (m : ℚ) = m := by
  rw [jsRound_eq_floor]
  refine Int.floor_eq_iff.mpr ⟨?_, ?_⟩ <;> push_cast <;> linarith

theorem getPayoutMultipliers_get (B i : ℕ) (h : i < B) :
    (getPayoutMultipliers B)[i]? =
      some (1/2 + ((((i : ℤ) - (B / 2 : ℕ)).natAbs : ℚ)) * (3/10)) := by
  rw [getPayoutMultipliers]
  dsimp only
  rw [List.getElem?_map, List.getElem?_range h, Option.map_some']
  congr 1
  set d : ℕ := ((i : ℤ) - ((B / 2 : ℕ) : ℤ)).natAbs with hd
  have hcast : (1/2 + (d : ℚ) * (3/10)) * 100 = ((50 + 30 * d : ℕ) : ℚ) := by
    push_cast
    ring
  rw [hcast, jsRound_natCast]
  push_cast
  ring

/-! ## Test-vector constants -/

def tvServerSeed : String :=
  "b2a5f3f32a4d9c6ee7a8c1d33456677890abcdeffedcba0987654321ffeeddcc"

def tvClientSeed : String := "candidate-hello"

def tvNonce : String := "42"

def tvCombinedSeed : String :=
  "e1dddf77de27d395ea2be2ed49aa2a59bd6bf12ee8d350c16c008abd406c07e0"

/-! ## Claim theorems -/

/-- C1: for all fixed inputs (server secret, client seed, nonce, drop column,
row count, stake), two invocations of `playRound` produce identical Game
Results — the same peg map, peg map hash, path (with every recorded draw,
bias and adjusted bias), bin index, payout multiplier, payout amount and
combined seed.  In this embedding `playRound` is a pure function of its six
arguments, so the two results coincide componentwise. -/
theorem playRound_deterministic (s c n : String) (col : ℤ) (rows : ℕ) (bet : ℤ) :
    playRound s c n col rows bet = playRound s c n col rows bet ∧
    ∀ r₁ r₂ : GameResult, playRound s c n col rows bet = some r₁ →
      playRound s c n col rows bet = some r₂ →
      r₁.pegMap = r₂.pegMap ∧ r₁.pegMapHash = r₂.pegMapHash ∧ r₁.path = r₂.path ∧
      r₁.binIndex = r₂.binIndex ∧ r₁.payoutMultiplier = r₂.payoutMultiplier ∧
      r₁.payoutCents = r₂.payoutCents ∧ r₁.rows = r₂.rows ∧
      r₁.combinedSeed = r₂.combinedSeed := by
  refine ⟨rfl, fun r₁ r₂ h₁ h₂ => ?_⟩
  rw [h₁] at h₂
  have h := Option.some.inj h₂
  subst h
  exact ⟨rfl, rfl, rfl, rfl, rfl, rfl, rfl, rfl⟩

/-- C2 (amended): `playRound` performs no input validation.  For the supported
row count 12, every drop column (including columns outside `[0, 12]`) and
every stake (including zero and negative stakes) produce a normal Game
Result: out-of-range columns are absorbed by clamping the adjusted bias, and
rejection of bad input happens only in the HTTP route layer, not in the
engine. -/
theorem playRound_no_validation (s c n : String) (col bet : ℤ) :
    (playRound s c n col 12 bet).isSome = true := by
  rcases playRound_success12 s c n col bet with ⟨r, hr⟩
  rw [hr]
  rfl

/-- C3 (amended): whenever `playRound` returns a result, the path has exactly
`ROWS = 12` steps — one per row 0..11 — regardless of the `rows` argument,
because `simulateDrop` iterates the module constant `ROWS`; the bin index read
off the last step lies in `[0, 12]`.  For the supported row count 12 this is
exactly one step per row. -/
theorem playRound_path_spec (s c n : String) (col bet : ℤ) (rows : ℕ)
    (r : GameResult) (h : playRound s c n col rows bet = some r) :
    r.path.length = 12 ∧
    (∀ (i : ℕ) (st : GamePath), r.path[i]? = some st → st.row = i) ∧
    r.binIndex ≤ 12 :=
  playRound_path12 s c n col bet rows r h

/-- C4 (amended): the bin index and payout multiplier do not depend on the
stake; the payout is `round(stake * multiplier)` in integer minor units with
round-half-up; doubling the stake doubles the payout only up to the final
rounding — `|payout(2s) - 2*payout(s)| ≤ 1` — with exact doubling failing when
`stake * multiplier` has fractional part one half. -/
theorem playRound_stake_spec (s c n : String) (col : ℤ) (rows : ℕ) (bet : ℤ)
    (r r₂ : GameResult) (h : playRound s c n col rows bet = some r)
    (h₂ : playRound s c n col rows (2 * bet) = some r₂) :
    r₂.binIndex = r.binIndex ∧ r₂.payoutMultiplier = r.payoutMultiplier ∧
    r.payoutCents = jsRound ((bet : ℚ) * r.payoutMultiplier) ∧
    r₂.payoutCents = jsRound (2 * ((bet : ℚ) * r.payoutMultiplier)) ∧
    |r₂.payoutCents - 2 * r.payoutCents| ≤ 1 := by
  rcases playRound_bet s c n col rows bet (2 * bet) r h with ⟨h₂', hpay⟩
  rw [h₂'] at h₂
  have hr := Option.some.inj h₂
  subst hr
  dsimp only
  have hq : ((2 * bet : ℤ) : ℚ) * r.payoutMultiplier =
      2 * ((bet : ℚ) * r.payoutMultiplier) := by push_cast; ring
  refine ⟨rfl, rfl, hpay, by rw [hq], ?_⟩
  rw [hq, hpay]
  exact jsRound_two_mul _

/-- C5 (amended): for every bin count B the table has B entries and entry i
equals `0.5 + |i - floor(B/2)| * 0.3` (the 2-decimal rounding is exact on
these values); the table is symmetric — `multiplier(i) = multiplier(B-1-i)` —
for every odd B (in particular the engine's B = 13); and for B ≥ 3 both edge
multipliers strictly exceed the center multiplier.  For even B the table is
not symmetric, and for B = 2 the right edge coincides with the center. -/
theorem getPayoutMultipliers_spec (B i : ℕ) (h : i < B) :
    (getPayoutMultipliers B).length = B ∧
    (getPayoutMultipliers B)[i]? =
      some (1/2 + ((((i : ℤ) - ((B / 2 : ℕ) : ℤ)).natAbs : ℚ)) * (3/10)) ∧
    (B % 2 = 1 →
      (getPayoutMultipliers B)[i]? = (getPayoutMultipliers B)[B - 1 - i]?) ∧
    (3 ≤ B →
      (getPayoutMultipliers B).getD (B / 2) 0 < (getPayoutMultipliers B).getD 0 0 ∧
      (getPayoutMultipliers B).getD (B / 2) 0 <
        (getPayoutMultipliers B).getD (B - 1) 0) := by
  refine ⟨getPayoutMultipliers_length B, getPayoutMultipliers_get B i h,
    fun hodd => ?_, fun hB => ?_⟩
  · have h2 : B - 1 - i < B := by omega
    rw [getPayoutMultipliers_get B i h, getPayoutMultipliers_get B (B - 1 - i) h2]
    have hd : ((i : ℤ) - ((B / 2 : ℕ) : ℤ)).natAbs =
        (((B - 1 - i : ℕ) : ℤ) - ((B / 2 : ℕ) : ℤ)).natAbs := by omega
    rw [hd]
  · have h0 : (0 : ℕ) < B := by omega
    have hc : B / 2 < B := by omega
    have hl : B - 1 < B := by omega
    rw [List.getD_eq_getElem?_getD, List.getD_eq_getElem?_getD,
      List.getD_eq_getElem?_getD, getPayoutMultipliers_get B (B / 2) hc,
      getPayoutMultipliers_get B 0 h0, getPayoutMultipliers_get B (B - 1) hl]
    dsimp only [Option.getD_some]
    have hd0 : ((((B / 2 : ℕ)) : ℤ) - ((B / 2 : ℕ) : ℤ)).natAbs = 0 := by omega
    have hdz : 1 ≤ (((0 : ℕ) : ℤ) - ((B / 2 : ℕ) : ℤ)).natAbs := by omega
    have hdl : 1 ≤ ((((B - 1 : ℕ)) : ℤ) - ((B / 2 : ℕ) : ℤ)).natAbs := by omega
    rw [hd0]
    constructor
    · have hz : (1 : ℚ) ≤ ((((0 : ℕ) : ℤ) - ((B / 2 : ℕ) : ℤ)).natAbs : ℚ) := by
        exact_mod_cast hdz
      push_cast at hz ⊢
      linarith
    · have hz : (1 : ℚ) ≤ (((((B - 1 : ℕ)) : ℤ) - ((B / 2 : ℕ) : ℤ)).natAbs : ℚ) := by
        exact_mod_cast hdl
      push_cast at hz ⊢
      linarith

/-- C6: `generatePegMap` returns a triangular array — row r (0-indexed) holds
exactly r+1 biases — equal to the closed form `pegMapClosed`, whose entry
(r, p) is `round6(0.5 + (u - 0.5)*0.2)` of draw number `r*(r+1)/2 + p + 1` of
the stream (row-major, left-to-right); every stored bias lies in
`[0.4, 0.6] = [2/5, 3/5]`; exactly `rows*(rows+1)/2` draws are consumed (the
final generator state is the `rows*(rows+1)/2`-fold iterate and the call
counter advances by the same amount); and every adjusted bias compared
against a draw in `simulateDrop` lies in `[0, 1]`. -/
theorem generatePegMap_spec (rng : RoundRNG) (rows : ℕ) :
    (generatePegMap rng rows).1 = pegMapClosed rng.prngState rows ∧
    (generatePegMap rng rows).1.length = rows ∧
    (∀ (r : ℕ) (l : List ℚ), (generatePegMap rng rows).1[r]? = some l →
      l.length = r + 1 ∧ ∀ b ∈ l, 2/5 ≤ b ∧ b ≤ 3/5) ∧
    (generatePegMap rng rows).2.prngState =
      next32^[rows * (rows + 1) / 2] rng.prngState ∧
    (generatePegMap rng rows).2.callCount =
      rng.callCount + rows * (rows + 1) / 2 ∧
    (∀ (rng2 : RoundRNG) (pegMap : List (List ℚ)) (dropColumn : ℤ)
        (path : List GamePath) (rng3 : RoundRNG),
      simulateDrop rng2 pegMap dropColumn = some (path, rng3) →
      ∀ st ∈ path, 0 ≤ st.adjustedBias ∧ st.adjustedBias ≤ 1) := by
  refine ⟨by rw [generatePegMap_eq], ?_, ?_, by rw [generatePegMap_eq],
    by rw [generatePegMap_eq], ?_⟩
  · rw [generatePegMap_eq]
    exact pegMapClosed_length _ _
  · intro r l hl
    rw [generatePegMap_eq] at hl
    dsimp only at hl
    have hr : r < rows := by
      rcases List.getElem?_eq_some_iff.mp hl with ⟨hlt, _⟩
      rwa [pegMapClosed_length] at hlt
    rw [pegMapClosed_row _ _ _ hr] at hl
    have hleq := Option.some.inj hl
    constructor
    · rw [← hleq, List.length_map, List.length_range]
    · intro b hb
      rw [← hleq] at hb
      rcases List.mem_map.mp hb with ⟨p, _, hpb⟩
      rw [← hpb]
      exact pegBiasOf_iterate_bounds _ _
  · intro rng2 pegMap dropColumn path rng3 hsd
    rw [simulateDrop] at hsd
    exact simGo_adjusted _ _ _ _ _ _ _ _ hsd

/-- C8: the `XORShift32` constructor stores `seed >>> 0` (an unsigned 32-bit
value; `NaN` coerces to 0) and coerces a zero seed to 1, so the stored state
is nonzero and below `2^32`; `next()` XORs into the state its left-shift by
13, right-shift by 17 and left-shift by 5, each kept to 32 bits, and returns
`state / 2^32`, a value in `[0, 1)`; the output of call k+1 is a function of
the state reached after the previous k calls. -/
theorem xorshift32_spec (z : ℤ) (s : ℕ) :
    xorInit (some z) =
      (if (z % 2 ^ 32).toNat = 0 then 1 else (z % 2 ^ 32).toNat) ∧
    xorInit none = 1 ∧
    xorInit (some z) ≠ 0 ∧
    xorInit (some z) < 2 ^ 32 ∧
    next32 s =
      (let a := s ^^^ (s <<< 13) % 2 ^ 32
       let b := a ^^^ a >>> 17
       let c := b ^^^ (b <<< 5) % 2 ^ 32
       c % 2 ^ 32) ∧
    nextOut s = (next32 s : ℚ) / 2 ^ 32 ∧
    0 ≤ nextOut s ∧ nextOut s < 1 ∧
    (∀ k : ℕ, nextOut (next32^[k] s) = (next32^[k + 1] s : ℚ) / 2 ^ 32) := by
  have hmod : 0 ≤ z % 2 ^ 32 ∧ z % 2 ^ 32 < 2 ^ 32 :=
    ⟨Int.emod_nonneg z (by norm_num), Int.emod_lt_of_pos z (by norm_num)⟩
  refine ⟨rfl, rfl, ?_, ?_, rfl, rfl, nextOut_nonneg s, nextOut_lt_one s, fun k => ?_⟩
  · rw [xorInit]
    split
    · exact one_ne_zero
    · assumption
  · have ht : toUint32 (some z) = (z % 2 ^ 32).toNat := rfl
    rw [xorInit, ht]
    split
    · norm_num
    · omega
  · rw [nextOut, Function.iterate_succ_apply']

/-- C9: `verifyCommit(secret, nonce, createCommitHash(secret, nonce))` returns
`true` for all secret/nonce strings, where `createCommitHash` is the
hex-encoded SHA-256 of `secret ++ ":" ++ nonce`; `verifyCommit` is a total
boolean equality test of the recomputed commitment against the supplied one,
so it never throws on malformed input. -/
theorem verifyCommit_sound (secret nonce : String) :
    verifyCommit secret nonce (createCommitHash secret nonce) = true ∧
    createCommitHash secret nonce = sha256Hex (secret ++ ":" ++ nonce) ∧
    ∀ commit : String, verifyCommit secret nonce commit = true ↔
      createCommitHash secret nonce = commit := by
  refine ⟨?_, rfl, fun commit => ?_⟩
  · simp [verifyCommit]
  · rw [verifyCommit]
    exact beq_iff_eq

/-- C10 (amended): for every combined-seed string whose first character is
neither a hexadecimal digit nor one of the characters `parseInt` consumes
before the digits (whitespace and the signs `+`/`-`), `extractPRNGSeed`
returns `NaN` (`none`); the constructor's `>>> 0` turns that into 0 and the
zero-state coercion into 1, so every such seed yields the identical random
stream — the one seeded with 1 — rather than an error.  (A first character
that is whitespace or a sign is skipped by `parseInt` and can still yield a
numeric seed.) -/
theorem extractPRNGSeed_nonhex_spec (c : Char) (rest : List Char)
    (h1 : isHexDigitChar c = false) (h2 : isJsWhitespace c = false)
    (h3 : c ≠ '+') (h4 : c ≠ '-') :
    extractPRNGSeed (String.mk (c :: rest)) = none ∧
    toUint32 (extractPRNGSeed (String.mk (c :: rest))) = 0 ∧
    RoundRNG.init (String.mk (c :: rest)) = ⟨1, 0⟩ := by
  have he := extractPRNGSeed_nonhex c rest h1 h2 h3 h4
  refine ⟨he, by rw [he]; rfl, ?_⟩
  rw [RoundRNG.init, he]
  rfl

section

attribute [local semireducible] Rat.mul Rat.add Rat.sub Rat.inv

set_option maxRecDepth 100000

/-- Transport `getD` through `take 3`. -/
theorem take3_getD (L M : List (List ℚ)) (h : L.take 3 = M) (i : ℕ) (hi : i < 3) :
    L.getD i [] = M.getD i [] := by
  rw [← h, List.getD_eq_getElem?_getD, List.getD_eq_getElem?_getD,
    List.getElem?_take_of_lt hi]

/-- C7: on the literal end-to-end vector (`tvServerSeed`, "candidate-hello",
"42", drop column 6, 12 rows) `playRound` yields the expected combined seed
`tvCombinedSeed`, bin index 6, and peg-map rows 0, 1, 2 within tolerance
`1e-6` of the published values `0.422123`, `[0.552503, 0.408786]`,
`[0.491574, 0.468780, 0.436540]` (the computed 6-dp biases are exact). -/
theorem playRound_test_vector :
    ∃ r : GameResult, playRound tvServerSeed tvClientSeed tvNonce 6 12 100 = some r ∧
      r.combinedSeed = tvCombinedSeed ∧ r.binIndex = 6 ∧
      422123/1000000 - 1/1000000 ≤ (r.pegMap.getD 0 []).getD 0 0 ∧
      (r.pegMap.getD 0 []).getD 0 0 ≤ 422123/1000000 + 1/1000000 ∧
      552503/1000000 - 1/1000000 ≤ (r.pegMap.getD 1 []).getD 0 0 ∧
      (r.pegMap.getD 1 []).getD 0 0 ≤ 552503/1000000 + 1/1000000 ∧
      408786/1000000 - 1/1000000 ≤ (r.pegMap.getD 1 []).getD 1 0 ∧
      (r.pegMap.getD 1 []).getD 1 0 ≤ 408786/1000000 + 1/1000000 ∧
      491574/1000000 - 1/1000000 ≤ (r.pegMap.getD 2 []).getD 0 0 ∧
      (r.pegMap.getD 2 []).getD 0 0 ≤ 491574/1000000 + 1/1000000 ∧
      468780/1000000 - 1/1000000 ≤ (r.pegMap.getD 2 []).getD 1 0 ∧
      (r.pegMap.getD 2 []).getD 1 0 ≤ 468780/1000000 + 1/1000000 ∧
      436540/1000000 - 1/1000000 ≤ (r.pegMap.getD 2 []).getD 2 0 ∧
      (r.pegMap.getD 2 []).getD 2 0 ≤ 436540/1000000 + 1/1000000 := by
  have key : (playRound tvServerSeed tvClientSeed tvNonce 6 12 100).map
      (fun r => (r.combinedSeed, r.binIndex, r.pegMap.take 3)) =
      some (tvCombinedSeed, 6,
        [[422123/1000000],
         [552503/1000000, 408786/1000000],
         [491574/1000000, 468780/1000000, 436540/1000000]]) := by decide
  rcases Option.map_eq_some'.mp key with ⟨r, hr, hf⟩
  simp only [Prod.mk.injEq] at hf
  rcases hf with ⟨h1, h2, h3⟩
  have g0 := take3_getD r.pegMap _ h3 0 (by norm_num)
  have g1 := take3_getD r.pegMap _ h3 1 (by norm_num)
  have g2 := take3_getD r.pegMap _ h3 2 (by norm_num)
  refine ⟨r, hr, h1, h2, ?_, ?_, ?_, ?_, ?_, ?_, ?_, ?_, ?_, ?_, ?_, ?_⟩ <;>
    first
      | (rw [g0]; norm_num)
      | (rw [g1]; norm_num)
      | (rw [g2]; norm_num)

/-- C2 counterexample: with drop column 13 (outside `[0, 12]`) and stake 0
(non-positive), `playRound` still returns a normal Game Result — bin 5 with
payout 0 — instead of failing before drawing randomness. -/
theorem playRound_no_validation_counterexample :
    (playRound tvServerSeed tvClientSeed tvNonce 13 12 0).map
      (fun r => (r.binIndex, r.payoutCents)) = some (5, 0) := by
  decide

/-- C3 counterexample: with the valid positive row count 13 the returned path
has 12 steps, not 13 — `simulateDrop` iterates the constant `ROWS = 12`. -/
theorem playRound_path_length_counterexample :
    (playRound tvServerSeed tvClientSeed tvNonce 6 13 100).map
      (fun r => (r.rows, r.path.length)) = some (13, 12) ∧ (13 : ℕ) ≠ 12 :=
  ⟨by decide, by decide⟩

/-- Witness for C3 at the test-vector inputs. -/
theorem playRound_path_spec_witness :
    ∃ r : GameResult, playRound tvServerSeed tvClientSeed tvNonce 6 12 100 = some r ∧
      (r.path.length = 12 ∧
       (∀ (i : ℕ) (st : GamePath), r.path[i]? = some st → st.row = i) ∧
       r.binIndex ≤ 12) := by
  have hs : (playRound tvServerSeed tvClientSeed tvNonce 6 12 100).isSome = true := by
    decide
  exact ⟨_, (Option.some_get hs).symm,
    playRound_path_spec tvServerSeed tvClientSeed tvNonce 6 100 12 _
      (Option.some_get hs).symm⟩

/-- C4 counterexample: at the test-vector round (multiplier 1/2), stake 1
pays 1 cent and stake 2 also pays 1 cent, so doubling the stake does not
exactly double the payout. -/
theorem playRound_stake_doubling_counterexample :
    (playRound tvServerSeed tvClientSeed tvNonce 6 12 1).map
      (fun r => r.payoutCents) = some 1 ∧
    (playRound tvServerSeed tvClientSeed tvNonce 6 12 2).map
      (fun r => r.payoutCents) = some 1 ∧
    (1 : ℤ) ≠ 2 * 1 :=
  ⟨by decide, by decide, by decide⟩

/-- Witness for C4 at the test-vector inputs with stakes 1 and 2. -/
theorem playRound_stake_spec_witness :
    ∃ r r₂ : GameResult,
      playRound tvServerSeed tvClientSeed tvNonce 6 12 1 = some r ∧
      playRound tvServerSeed tvClientSeed tvNonce 6 12 (2 * 1) = some r₂ ∧
      (r₂.binIndex = r.binIndex ∧ r₂.payoutMultiplier = r.payoutMultiplier ∧
       r.payoutCents = jsRound ((1 : ℚ) * r.payoutMultiplier) ∧
       r₂.payoutCents = jsRound (2 * ((1 : ℚ) * r.payoutMultiplier)) ∧
       |r₂.payoutCents - 2 * r.payoutCents| ≤ 1) := by
  have h1 : (playRound tvServerSeed tvClientSeed tvNonce 6 12 1).isSome = true := by
    decide
  have h2 : (playRound tvServerSeed tvClientSeed tvNonce 6 12 (2 * 1)).isSome = true := by
    decide
  exact ⟨_, _, (Option.some_get h1).symm, (Option.some_get h2).symm,
    playRound_stake_spec tvServerSeed tvClientSeed tvNonce 6 12 1 _ _
      (Option.some_get h1).symm (Option.some_get h2).symm⟩

/-- Witness for C1: the two (identical) invocations at the test-vector inputs
agree componentwise. -/
theorem playRound_deterministic_witness :
    ∃ r : GameResult, playRound tvServerSeed tvClientSeed tvNonce 6 12 100 = some r ∧
      (r.pegMap = r.pegMap ∧ r.pegMapHash = r.pegMapHash ∧ r.path = r.path ∧
       r.binIndex = r.binIndex ∧ r.payoutMultiplier = r.payoutMultiplier ∧
       r.payoutCents = r.payoutCents ∧ r.rows = r.rows ∧
       r.combinedSeed = r.combinedSeed) := by
  have hs : (playRound tvServerSeed tvClientSeed tvNonce 6 12 100).isSome = true := by
    decide
  exact ⟨_, (Option.some_get hs).symm,
    (playRound_deterministic tvServerSeed tvClientSeed tvNonce 6 12 100).2 _ _
      (Option.some_get hs).symm (Option.some_get hs).symm⟩

/-- C5 counterexample: for the even bin count 4 the table is
`[1.1, 0.8, 0.5, 0.8]`, so `multiplier(0) ≠ multiplier(3)` — the claimed
symmetry fails; and for bin count 2 the right edge (bin 1) *is* the center
bin, so the edge does not strictly exceed the center. -/
theorem getPayoutMultipliers_claim_counterexample :
    (getPayoutMultipliers 4).getD 0 0 = 11/10 ∧
    (getPayoutMultipliers 4).getD (4 - 1 - 0) 0 = 4/5 ∧
    (11/10 : ℚ) ≠ 4/5 ∧
    ¬ (getPayoutMultipliers 2).getD (2 / 2) 0 <
        (getPayoutMultipliers 2).getD (2 - 1) 0 :=
  ⟨by decide, by decide, by decide, by decide⟩

/-- Witness for C5 at B = 13, i = 2. -/
theorem getPayoutMultipliers_spec_witness :
    (getPayoutMultipliers 13).length = 13 ∧
    (getPayoutMultipliers 13)[2]? =
      some (1/2 + (((((2 : ℕ) : ℤ) - (((13 : ℕ) / 2 : ℕ) : ℤ)).natAbs : ℚ)) * (3/10)) ∧
    ((13 : ℕ) % 2 = 1 →
      (getPayoutMultipliers 13)[2]? = (getPayoutMultipliers 13)[13 - 1 - 2]?) ∧
    (3 ≤ 13 →
      (getPayoutMultipliers 13).getD (13 / 2) 0 < (getPayoutMultipliers 13).getD 0 0 ∧
      (getPayoutMultipliers 13).getD (13 / 2) 0 <
        (getPayoutMultipliers 13).getD (13 - 1) 0) :=
  getPayoutMultipliers_spec 13 2 (by decide)

/-- Witness for C6: row 0 of the map generated from state 1 is the concrete
singleton `[0.400013]`, of length 1, with its bias inside `[0.4, 0.6]`. -/
theorem generatePegMap_spec_witness :
    (generatePegMap ⟨1, 0⟩ 3).1[0]? = some [400013/1000000] ∧
    ([400013/1000000] : List ℚ).length = 0 + 1 ∧
    ∀ b ∈ ([400013/1000000] : List ℚ), 2/5 ≤ b ∧ b ≤ 3/5 := by
  have hyp : (generatePegMap ⟨1, 0⟩ 3).1[0]? = some [400013/1000000] := by decide
  rcases (generatePegMap_spec ⟨1, 0⟩ 3).2.2.1 0 _ hyp with ⟨hl, hb⟩
  exact ⟨hyp, hl, hb⟩

/-- C10 counterexample: the string `" 1234567deadbeef"` starts with a space —
not a hexadecimal digit — yet `extractPRNGSeed` parses it to `0x1234567`
(`parseInt` skips leading whitespace), and the resulting generator state is
19088743, not the state-1 stream the claim predicts. -/
theorem extractPRNGSeed_counterexample :
    isHexDigitChar ' ' = false ∧
    extractPRNGSeed (" 1234567deadbeef") = some 19088743 ∧
    xorInit (extractPRNGSeed (" 1234567deadbeef")) = 19088743 ∧
    xorInit (extractPRNGSeed (" 1234567deadbeef")) ≠ xorInit none :=
  ⟨by decide, by decide, by decide, by decide⟩

/-- Witness for C10 at the concrete non-hex seed `"zzzzzzzzz"`. -/
theorem extractPRNGSeed_nonhex_witness :
    extractPRNGSeed (String.mk ('z' :: "zzzzzzzz".data)) = none ∧
    toUint32 (extractPRNGSeed (String.mk ('z' :: "zzzzzzzz".data))) = 0 ∧
    RoundRNG.init (String.mk ('z' :: "zzzzzzzz".data)) = ⟨1, 0⟩ :=
  extractPRNGSeed_nonhex_spec 'z' "zzzzzzzz".data (by decide) (by decide)
    (by decide) (by decide)

end
